import Mathlib

/-!
Shallow embedding of the human-in-the-loop tool-call reconciliation pipeline
(`processToolCalls` in `src/utils.ts`) of the agents-with-cloudflare-tools
repository, together with proofs of the specification's claims about it.

Modelling choices:
* JavaScript values flowing through the pipeline (tool arguments, tool
  results) are modelled by the inductive type `Val`.
* A tool-invocation part (`ToolInvocationUIPart` of `@ai-sdk/ui-utils`) is a
  record carrying the tool name, the call id, the `state` discriminator
  string, the argument payload, and (once in `result` state) a result value;
  the `result` field is an `Option Val` because it is absent before the
  `result` state is reached.
* The `executions` object maps tool names to optional resolver functions;
  in TypeScript an entry can be present with value `undefined`, so the map
  is an association list `String × Option Resolver`, and the JavaScript
  member access `executions[toolName]` is `(lookupExec E name).join`
  (absent key and present-but-undefined key both give `none`).
* A resolver either returns a value or raises; it is `Val → Except String Val`.
* The data-stream write `formatDataStreamPart("tool_result", {toolCallId,
  result})` is modelled as appending an `Event` to an output list; the
  pipeline result is the processed messages together with the ordered list
  of published events and of resolver invocations (the latter instruments
  "the resolver was called exactly once with these arguments").
* `Promise.all(parts.map cb)` is a fan-out/fan-in join whose reassembly is
  positional, so it is `List.map` of the per-part step.
* `messages[messages.length - 1]` faults on an empty array (`undefined.parts`
  throws), so the top level returns `Option`, `none` for the empty transcript.
-/

/-- A JavaScript value carried in tool arguments and results. -/
inductive Val where
  | str (s : String)
  | num (n : Int)
  | bool (b : Bool)
  | null
deriving DecidableEq, Repr

/-- Modelled from the spec: `src/shared.ts` (the `APPROVAL` sentinel object
imported by `src/utils.ts`) is not among the sources. §6 of the spec fixes
"exactly two string constants representing approved and denied", and the §8
end-to-end scenarios name them `APPROVAL_YES` and `APPROVAL_NO`. Every claim
below depends only on the two sentinels being distinct strings. -/
def APPROVAL.YES : String := "APPROVAL_YES"

/-- Modelled from the spec: the deny sentinel, see `APPROVAL.YES`. -/
def APPROVAL.NO : String := "APPROVAL_NO"

/-- A tool invocation fragment: `ToolInvocation` of `@ai-sdk/ui-utils`.
`state` is the decision-state discriminator (`"partial-call"`, `"call"` or
`"result"`); `result` is present exactly in the `"result"` state. -/
structure ToolInvocation where
  toolName : String
  toolCallId : String
  state : String
  args : Val
  result : Option Val
deriving DecidableEq, Repr

/-- A part of a message: the `Message.parts` union of `@ai-sdk/ui-utils`.
Only the `tool-invocation` variant is inspected by the pipeline; the other
variants (`text`, `reasoning`, `source`, `file`, `step-start`) are carried
opaquely. -/
inductive MsgPart where
  | text (text : String)
  | reasoning (reasoning : String)
  | source (source : String)
  | file (data : String)
  | stepStart
  | toolInvocation (toolInvocation : ToolInvocation)
deriving DecidableEq, Repr

/-- One turn of the conversation (`Message` of `@ai-sdk/ui-utils`): id, role,
content, creation timestamp and an optional list of parts. -/
structure Message where
  id : String
  role : String
  content : String
  createdAt : Nat
  parts : Option (List MsgPart)
deriving DecidableEq, Repr

/-- A resolver function from the `executions` map: receives the invocation's
arguments and either returns a result value or raises an error. -/
def Resolver : Type := Val → Except String Val

/-- The `executions` map of `processToolCalls`: tool name to optional resolver.
An entry whose value is `none` models a key present with value `undefined`. -/
def Executions : Type := List (String × Option Resolver)

/-- One `{toolCallId, result}` pair written to the data stream via
`formatDataStreamPart("tool_result", ...)`. -/
structure Event where
  toolCallId : String
  result : Val
deriving DecidableEq, Repr

/-- A record of one resolver invocation: which tool was executed, with which
arguments. Instruments the "executes exactly once" claims. -/
structure Call where
  toolName : String
  args : Val
deriving DecidableEq, Repr

/-- Key lookup in the `executions` object: `some v` iff the key is present
(`toolName in executions`), where `v` is the stored optional function. -/
def lookupExec (E : Executions) (name : String) : Option (Option Resolver) :=
  match E with
  | [] => none
  | (n, f) :: rest => if n = name then some f else lookupExec rest name

/-- The per-part body of the `parts.map` callback in `processToolCalls`
(`src/utils.ts` lines 196–301): returns the (possibly rewritten) part, the
events written to the data stream, and the resolver invocations performed. -/
def processPart (E : Executions) (part : MsgPart) : MsgPart × List Event × List Call :=
  match part with
  | MsgPart.toolInvocation inv =>
    -- Only continue if the tool is in `executions` and in `result` state.
    if (lookupExec E inv.toolName).isNone ∨ inv.state ≠ "result" then
      (MsgPart.toolInvocation inv, [], [])
    else if inv.result = some (Val.str APPROVAL.YES) then
      -- `isValidToolName` defensive re-check (same condition as the guard).
      if (lookupExec E inv.toolName).isNone ∨ inv.state ≠ "result" then
        (MsgPart.toolInvocation inv, [], [])
      else
        match (lookupExec E inv.toolName).join with
        | some f =>
          match f inv.args with
          | Except.ok v =>
            (MsgPart.toolInvocation { inv with result := some v },
             [Event.mk inv.toolCallId v], [Call.mk inv.toolName inv.args])
          | Except.error e =>
            (MsgPart.toolInvocation
               { inv with result := some (Val.str ("Error executing tool: " ++ e)) },
             [Event.mk inv.toolCallId (Val.str ("Error executing tool: " ++ e))],
             [Call.mk inv.toolName inv.args])
        | none =>
          (MsgPart.toolInvocation
             { inv with result := some (Val.str "Error: No execute function found on tool") },
           [Event.mk inv.toolCallId (Val.str "Error: No execute function found on tool")],
           [])
    else if inv.result = some (Val.str APPROVAL.NO) then
      (MsgPart.toolInvocation
         { inv with result := some (Val.str "Error: User denied access to tool execution") },
       [Event.mk inv.toolCallId (Val.str "Error: User denied access to tool execution")],
       [])
    else
      -- Unhandled result: return the original part.
      (MsgPart.toolInvocation inv, [], [])
  | p => (p, [], [])

/-- The reconciled part produced for one input part. -/
def processedPart (E : Executions) (p : MsgPart) : MsgPart :=
  (processPart E p).1

/-- The events published while reconciling one part. -/
def partEvents (E : Executions) (p : MsgPart) : List Event :=
  (processPart E p).2.1

/-- The resolver invocations performed while reconciling one part. -/
def partCalls (E : Executions) (p : MsgPart) : List Call :=
  (processPart E p).2.2

/-- The fan-out/fan-in `Promise.all(parts.map ...)` reassembly of the parts. -/
def processedParts (E : Executions) (ps : List MsgPart) : List MsgPart :=
  ps.map (processedPart E)

/-- The whole `processToolCalls` pass (`src/utils.ts` lines 150–308): returns
the processed message list, the published events and the resolver invocations,
or `none` when the transcript is empty (the source dereferences
`messages[messages.length - 1].parts`, which faults on an empty array). -/
def processToolCalls (E : Executions) (messages : List Message) :
    Option (List Message × List Event × List Call) :=
  match messages.getLast? with
  | none => none
  | some lastMessage =>
    match lastMessage.parts with
    | none => some (messages, [], [])
    | some parts =>
      some (messages.dropLast ++ [{ lastMessage with parts := some (processedParts E parts) }],
            (parts.map (partEvents E)).flatten,
            (parts.map (partCalls E)).flatten)

/-- A part that reaches one of the two rewriting branches of the pipeline:
a tool invocation whose tool is in `executions`, whose state is `result`,
and whose recorded result is one of the two decision sentinels. -/
def isRewritten (E : Executions) (p : MsgPart) : Bool :=
  match p with
  | MsgPart.toolInvocation inv =>
    (lookupExec E inv.toolName).isSome && decide (inv.state = "result") &&
      (decide (inv.result = some (Val.str APPROVAL.YES)) ||
       decide (inv.result = some (Val.str APPROVAL.NO)))
  | _ => false

/-- A part that is a tool invocation in `result` state whose recorded result
is one of the two decision sentinels (the idempotence side condition of the
spec, independent of the `executions` map). -/
def isSentinelResultPart (p : MsgPart) : Bool :=
  match p with
  | MsgPart.toolInvocation inv =>
    decide (inv.state = "result") &&
      (decide (inv.result = some (Val.str APPROVAL.YES)) ||
       decide (inv.result = some (Val.str APPROVAL.NO)))
  | _ => false

/-! ### Concrete witness data -/

/-- A resolver that returns a fixed weather string, like the
`getWeatherInformation` entry of the `executions` map in `src/tools.ts`. -/
def resolverOkC1 : Resolver := fun _ => Except.ok (Val.str "The weather in Lima is sunny")

/-- An `executions` map with one registered resolver function. -/
def exC1 : Executions := [("getWeatherInformation", some resolverOkC1)]

/-- An approved weather invocation in `result` state. -/
def invC1 : ToolInvocation :=
  { toolName := "getWeatherInformation", toolCallId := "call-1", state := "result",
    args := Val.str "Lima", result := some (Val.str APPROVAL.YES) }

/-- A resolver that is never reached on the denial path. -/
def resolverC2 : Resolver := fun _ => Except.ok (Val.str "should never run")

/-- An `executions` map registering `resolverC2`. -/
def exC2 : Executions := [("getWeatherInformation", some resolverC2)]

/-- A denied invocation in `result` state. -/
def invC2 : ToolInvocation :=
  { toolName := "getWeatherInformation", toolCallId := "call-2", state := "result",
    args := Val.str "Lima", result := some (Val.str APPROVAL.NO) }

/-- An `executions` map whose only entry is present but carries no function
(a key whose stored value is `undefined`). -/
def exC3 : Executions := [("getWeatherInformation", none)]

/-- An approved invocation whose `executions` entry carries no function. -/
def invC3 : ToolInvocation :=
  { toolName := "getWeatherInformation", toolCallId := "call-3", state := "result",
    args := Val.str "Lima", result := some (Val.str APPROVAL.YES) }

/-- An empty `executions` map. -/
def exC4 : Executions := []

/-- A tool invocation still awaiting its decision (state `call`). -/
def invC4 : ToolInvocation :=
  { toolName := "getLocalTime", toolCallId := "call-4", state := "call",
    args := Val.str "Lima", result := none }

/-- An assistant message whose parts are not tool invocations. -/
def lmC5 : Message :=
  { id := "m5", role := "assistant", content := "", createdAt := 5,
    parts := some [MsgPart.text "hello", MsgPart.stepStart] }

/-- A plain user message with no parts collection. -/
def msgU6 : Message :=
  { id := "m6u", role := "user", content := "what is the weather in Lima?",
    createdAt := 1, parts := none }

/-- An assistant message with a text part. -/
def lmC6 : Message :=
  { id := "m6a", role := "assistant", content := "", createdAt := 2,
    parts := some [MsgPart.text "checking"] }

/-- An already reconciled invocation: `result` state, non-sentinel payload. -/
def invC7 : ToolInvocation :=
  { toolName := "getWeatherInformation", toolCallId := "call-7", state := "result",
    args := Val.str "Lima", result := some (Val.str "sunny") }

/-- A last message with no sentinel-carrying parts. -/
def lmC7 : Message :=
  { id := "m7", role := "assistant", content := "", createdAt := 7,
    parts := some [MsgPart.text "hi", MsgPart.toolInvocation invC7] }

/-- A resolver that raises. -/
def resolverC8 : Resolver := fun _ => Except.error "boom"

/-- An `executions` map registering the raising resolver. -/
def exC8 : Executions := [("getWeatherInformation", some resolverC8)]

/-- An approved invocation routed to the raising resolver. -/
def invC8 : ToolInvocation :=
  { toolName := "getWeatherInformation", toolCallId := "call-8", state := "result",
    args := Val.str "Lima", result := some (Val.str APPROVAL.YES) }

/-- A last message lacking a parts collection (a plain text turn). -/
def lmC9 : Message :=
  { id := "m9", role := "user", content := "hello there", createdAt := 9,
    parts := none }

/-- A message making a transcript non-empty. -/
def msgC10 : Message :=
  { id := "m10", role := "user", content := "hi", createdAt := 10, parts := none }

/-! ### Branch lemmas for `processPart` -/

/-- The pass-through guard: a tool invocation whose tool is not in
`executions` or that is not in `result` state is returned unchanged. -/
theorem processPart_guard_true (E : Executions) (inv : ToolInvocation)
    (h : (lookupExec E inv.toolName).isNone = true ∨ inv.state ≠ "result") :
    processPart E (MsgPart.toolInvocation inv) = (MsgPart.toolInvocation inv, [], []) := by
  simp only [processPart]
  rw [if_pos h]

/-- The approve branch with a registered resolver function: the resolver is
called on the part's arguments, its value (or the caught error string)
becomes the new result, and one event is published. -/
theorem processPart_approved_fn (E : Executions) (inv : ToolInvocation) (f : Resolver)
    (hf : lookupExec E inv.toolName = some (some f))
    (hs : inv.state = "result")
    (hr : inv.result = some (Val.str APPROVAL.YES)) :
    processPart E (MsgPart.toolInvocation inv) =
      match f inv.args with
      | Except.ok v =>
        (MsgPart.toolInvocation { inv with result := some v },
         [Event.mk inv.toolCallId v], [Call.mk inv.toolName inv.args])
      | Except.error e =>
        (MsgPart.toolInvocation
           { inv with result := some (Val.str ("Error executing tool: " ++ e)) },
         [Event.mk inv.toolCallId (Val.str ("Error executing tool: " ++ e))],
         [Call.mk inv.toolName inv.args]) := by
  have hcond : ¬ ((lookupExec E inv.toolName).isNone = true ∨ inv.state ≠ "result") := by
    simp [hf, hs]
  simp only [processPart]
  rw [if_neg hcond, if_pos hr, if_neg hcond, hf]
  rfl

/-- The approve branch when the `executions` entry is present but carries no
function (`executions[toolName]` is `undefined`): the result becomes the fixed
"no execute function" error string, one event is published, no resolver runs. -/
theorem processPart_approved_nofn (E : Executions) (inv : ToolInvocation)
    (hf : lookupExec E inv.toolName = some none)
    (hs : inv.state = "result")
    (hr : inv.result = some (Val.str APPROVAL.YES)) :
    processPart E (MsgPart.toolInvocation inv) =
      (MsgPart.toolInvocation
         { inv with result := some (Val.str "Error: No execute function found on tool") },
       [Event.mk inv.toolCallId (Val.str "Error: No execute function found on tool")],
       []) := by
  have hcond : ¬ ((lookupExec E inv.toolName).isNone = true ∨ inv.state ≠ "result") := by
    simp [hf, hs]
  simp only [processPart]
  rw [if_neg hcond, if_pos hr, if_neg hcond, hf]
  rfl

/-- The deny branch: the result becomes the fixed denial message, one event is
published, no resolver runs. -/
theorem processPart_denied (E : Executions) (inv : ToolInvocation)
    (hin : (lookupExec E inv.toolName).isSome = true)
    (hs : inv.state = "result")
    (hr : inv.result = some (Val.str APPROVAL.NO)) :
    processPart E (MsgPart.toolInvocation inv) =
      (MsgPart.toolInvocation
         { inv with result := some (Val.str "Error: User denied access to tool execution") },
       [Event.mk inv.toolCallId (Val.str "Error: User denied access to tool execution")],
       []) := by
  obtain ⟨ef, hef⟩ := Option.isSome_iff_exists.mp hin
  have hcond : ¬ ((lookupExec E inv.toolName).isNone = true ∨ inv.state ≠ "result") := by
    simp [hef, hs]
  have hyes : ¬ (inv.result = some (Val.str APPROVAL.YES)) := by
    rw [hr]
    simp [APPROVAL.YES, APPROVAL.NO]
  simp only [processPart]
  rw [if_neg hcond, if_neg hyes, if_pos hr]

/-- A part that is not a tool invocation in `result` state carrying a decision
sentinel is left untouched, publishes nothing, and executes nothing. -/
theorem processPart_of_not_sentinel (E : Executions) (p : MsgPart)
    (h : isSentinelResultPart p = false) :
    processPart E p = (p, [], []) := by
  cases p with
  | toolInvocation inv =>
    by_cases hg : (lookupExec E inv.toolName).isNone = true ∨ inv.state ≠ "result"
    · exact processPart_guard_true E inv hg
    · have hs : inv.state = "result" := by
        rcases not_or.mp hg with ⟨-, hb⟩
        exact not_not.mp hb
      have h2 : ¬ (inv.result = some (Val.str APPROVAL.YES)) ∧
          ¬ (inv.result = some (Val.str APPROVAL.NO)) := by
        simpa [isSentinelResultPart, hs] using h
      simp only [processPart]
      rw [if_neg hg, if_neg h2.1, if_neg h2.2]
  | text s => rfl
  | reasoning s => rfl
  | source s => rfl
  | file s => rfl
  | stepStart => rfl

/-! ### The claims -/

/-- C1: for a tool-invocation part whose recorded result equals the approve
sentinel and whose tool name has a registered resolver function,
`processToolCalls` invokes that resolver exactly once with the part's
arguments; a normal return becomes the part's new result; a raised error is
caught into a string containing the error (never propagated), and the sibling
parts are still reconciled, each independently and in place. -/
theorem approval_executes_resolver_exactly_once (E : Executions)
    (inv : ToolInvocation) (f : Resolver)
    (hf : lookupExec E inv.toolName = some (some f))
    (hs : inv.state = "result")
    (hr : inv.result = some (Val.str APPROVAL.YES)) :
    partCalls E (MsgPart.toolInvocation inv) = [Call.mk inv.toolName inv.args] ∧
    (∀ v, f inv.args = Except.ok v →
      processedPart E (MsgPart.toolInvocation inv) =
        MsgPart.toolInvocation { inv with result := some v }) ∧
    (∀ e, f inv.args = Except.error e →
      processedPart E (MsgPart.toolInvocation inv) =
        MsgPart.toolInvocation
          { inv with result := some (Val.str ("Error executing tool: " ++ e)) }) ∧
    (∀ pre post : List MsgPart,
      processedParts E (pre ++ MsgPart.toolInvocation inv :: post) =
        processedParts E pre ++
          processedPart E (MsgPart.toolInvocation inv) :: processedParts E post) := by
  have hbr := processPart_approved_fn E inv f hf hs hr
  refine ⟨?_, ?_, ?_, ?_⟩
  · unfold partCalls
    rw [hbr]
    cases hc : f inv.args <;> rfl
  · intro v hv
    unfold processedPart
    rw [hbr, hv]
  · intro e he
    unfold processedPart
    rw [hbr, he]
  · intro pre post
    simp [processedParts]

/-- Witness for `approval_executes_resolver_exactly_once` at a concrete
approved weather invocation with a registered resolver. -/
theorem approval_executes_resolver_exactly_once_witness :
    (lookupExec exC1 invC1.toolName = some (some resolverOkC1) ∧
     invC1.state = "result" ∧
     invC1.result = some (Val.str APPROVAL.YES)) ∧
    (partCalls exC1 (MsgPart.toolInvocation invC1) = [Call.mk invC1.toolName invC1.args] ∧
     (∀ v, resolverOkC1 invC1.args = Except.ok v →
       processedPart exC1 (MsgPart.toolInvocation invC1) =
         MsgPart.toolInvocation { invC1 with result := some v }) ∧
     (∀ e, resolverOkC1 invC1.args = Except.error e →
       processedPart exC1 (MsgPart.toolInvocation invC1) =
         MsgPart.toolInvocation
           { invC1 with result := some (Val.str ("Error executing tool: " ++ e)) }) ∧
     (∀ pre post : List MsgPart,
       processedParts exC1 (pre ++ MsgPart.toolInvocation invC1 :: post) =
         processedParts exC1 pre ++
           processedPart exC1 (MsgPart.toolInvocation invC1) :: processedParts exC1 post)) :=
  ⟨⟨rfl, rfl, rfl⟩,
   approval_executes_resolver_exactly_once exC1 invC1 resolverOkC1 rfl rfl rfl⟩

/-- C2: for a tool-invocation part whose recorded result equals the deny
sentinel and whose tool name is in the `executions` map, the resolver is never
invoked and the part's new result is the fixed denial message. -/
theorem denial_short_circuit (E : Executions) (inv : ToolInvocation)
    (hin : (lookupExec E inv.toolName).isSome = true)
    (hs : inv.state = "result")
    (hr : inv.result = some (Val.str APPROVAL.NO)) :
    partCalls E (MsgPart.toolInvocation inv) = [] ∧
    processedPart E (MsgPart.toolInvocation inv) =
      MsgPart.toolInvocation
        { inv with result := some (Val.str "Error: User denied access to tool execution") } := by
  have hbr := processPart_denied E inv hin hs hr
  exact ⟨by unfold partCalls; rw [hbr], by unfold processedPart; rw [hbr]⟩

/-- Witness for `denial_short_circuit` at a concrete denied invocation. -/
theorem denial_short_circuit_witness :
    ((lookupExec exC2 invC2.toolName).isSome = true ∧
     invC2.state = "result" ∧
     invC2.result = some (Val.str APPROVAL.NO)) ∧
    (partCalls exC2 (MsgPart.toolInvocation invC2) = [] ∧
     processedPart exC2 (MsgPart.toolInvocation invC2) =
       MsgPart.toolInvocation
         { invC2 with result := some (Val.str "Error: User denied access to tool execution") }) :=
  ⟨⟨rfl, rfl, rfl⟩, denial_short_circuit exC2 invC2 rfl rfl rfl⟩

/-- C3 (counterexample to the claim as stated): for an approved part in
`result` state whose `executions` entry is present but carries no resolver
function, the pipeline does NOT pass the part through unchanged — it rewrites
its result to the fixed "no execute function" error string. -/
theorem no_execute_function_counterexample :
    lookupExec exC3 invC3.toolName = some none ∧
    invC3.state = "result" ∧
    invC3.result = some (Val.str APPROVAL.YES) ∧
    processedPart exC3 (MsgPart.toolInvocation invC3) ≠ MsgPart.toolInvocation invC3 :=
  ⟨rfl, rfl, rfl, by decide⟩

/-- C3 (amended): for an approved part in `result` state whose `executions`
entry is present but carries no resolver function, `processToolCalls` executes
nothing, rewrites the part's result to the fixed error string
"Error: No execute function found on tool", and publishes one event for it. -/
theorem no_execute_function_rewrites_error (E : Executions) (inv : ToolInvocation)
    (hf : lookupExec E inv.toolName = some none)
    (hs : inv.state = "result")
    (hr : inv.result = some (Val.str APPROVAL.YES)) :
    processedPart E (MsgPart.toolInvocation inv) =
      MsgPart.toolInvocation
        { inv with result := some (Val.str "Error: No execute function found on tool") } ∧
    partCalls E (MsgPart.toolInvocation inv) = [] ∧
    partEvents E (MsgPart.toolInvocation inv) =
      [Event.mk inv.toolCallId (Val.str "Error: No execute function found on tool")] := by
  have hbr := processPart_approved_nofn E inv hf hs hr
  exact ⟨by unfold processedPart; rw [hbr], by unfold partCalls; rw [hbr],
         by unfold partEvents; rw [hbr]⟩

/-- Witness for `no_execute_function_rewrites_error` at the concrete
function-less entry. -/
theorem no_execute_function_rewrites_error_witness :
    (lookupExec exC3 invC3.toolName = some none ∧
     invC3.state = "result" ∧
     invC3.result = some (Val.str APPROVAL.YES)) ∧
    (processedPart exC3 (MsgPart.toolInvocation invC3) =
       MsgPart.toolInvocation
         { invC3 with result := some (Val.str "Error: No execute function found on tool") } ∧
     partCalls exC3 (MsgPart.toolInvocation invC3) = [] ∧
     partEvents exC3 (MsgPart.toolInvocation invC3) =
       [Event.mk invC3.toolCallId (Val.str "Error: No execute function found on tool")]) :=
  ⟨⟨rfl, rfl, rfl⟩, no_execute_function_rewrites_error exC3 invC3 rfl rfl rfl⟩

/-- C4: a part that is not a tool invocation, or whose tool name is not a key
of the `executions` map, or whose decision state is not `result`, is returned
identical to its input, at its own position, regardless of the other parts. -/
theorem irrelevant_part_passthrough (E : Executions) (part : MsgPart)
    (h : ∀ inv, part = MsgPart.toolInvocation inv →
      (lookupExec E inv.toolName).isNone = true ∨ inv.state ≠ "result") :
    processedPart E part = part ∧
    ∀ (ps : List MsgPart) (i : Nat), ps[i]? = some part →
      (processedParts E ps)[i]? = some part := by
  have h1 : processedPart E part = part := by
    cases part with
    | toolInvocation inv =>
      unfold processedPart
      rw [processPart_guard_true E inv (h inv rfl)]
    | text s => rfl
    | reasoning s => rfl
    | source s => rfl
    | file s => rfl
    | stepStart => rfl
  refine ⟨h1, fun ps i hi => ?_⟩
  simp [processedParts, List.getElem?_map, hi, h1]

/-- Witness for `irrelevant_part_passthrough` at a pending (state `call`)
invocation of a tool with no `executions` entry. -/
theorem irrelevant_part_passthrough_witness :
    (∀ inv, MsgPart.toolInvocation invC4 = MsgPart.toolInvocation inv →
      (lookupExec exC4 inv.toolName).isNone = true ∨ inv.state ≠ "result") ∧
    (processedPart exC4 (MsgPart.toolInvocation invC4) = MsgPart.toolInvocation invC4 ∧
     ∀ (ps : List MsgPart) (i : Nat), ps[i]? = some (MsgPart.toolInvocation invC4) →
       (processedParts exC4 ps)[i]? = some (MsgPart.toolInvocation invC4)) := by
  have h : ∀ inv, MsgPart.toolInvocation invC4 = MsgPart.toolInvocation inv →
      (lookupExec exC4 inv.toolName).isNone = true ∨ inv.state ≠ "result" := by
    intro inv heq
    cases heq
    exact Or.inl rfl
  exact ⟨h, irrelevant_part_passthrough exC4 (MsgPart.toolInvocation invC4) h⟩

/-- C5: on a last message carrying parts, the output message has exactly as
many parts as the input, and the i-th output part is the reconciliation of the
i-th input part — the fan-out/fan-in reassembly preserves positional order. -/
theorem order_preservation (E : Executions) (ms : List Message) (lm : Message)
    (ps : List MsgPart) (hp : lm.parts = some ps) :
    processToolCalls E (ms ++ [lm]) =
      some (ms ++ [{ lm with parts := some (processedParts E ps) }],
            (ps.map (partEvents E)).flatten,
            (ps.map (partCalls E)).flatten) ∧
    (processedParts E ps).length = ps.length ∧
    ∀ i : Nat, (processedParts E ps)[i]? = (ps[i]?).map (processedPart E) := by
  refine ⟨?_, by simp [processedParts], fun i => by simp [processedParts]⟩
  simp [processToolCalls, List.getLast?_concat, List.dropLast_concat, hp]

/-- Witness for `order_preservation` at a concrete two-part last message. -/
theorem order_preservation_witness :
    lmC5.parts = some [MsgPart.text "hello", MsgPart.stepStart] ∧
    (processToolCalls exC4 ([] ++ [lmC5]) =
       some ([] ++ [{ lmC5 with
                parts := some (processedParts exC4 [MsgPart.text "hello", MsgPart.stepStart]) }],
             ([MsgPart.text "hello", MsgPart.stepStart].map (partEvents exC4)).flatten,
             ([MsgPart.text "hello", MsgPart.stepStart].map (partCalls exC4)).flatten) ∧
     (processedParts exC4 [MsgPart.text "hello", MsgPart.stepStart]).length =
       ([MsgPart.text "hello", MsgPart.stepStart] : List MsgPart).length ∧
     ∀ i : Nat, (processedParts exC4 [MsgPart.text "hello", MsgPart.stepStart])[i]? =
       (([MsgPart.text "hello", MsgPart.stepStart] : List MsgPart)[i]?).map
         (processedPart exC4)) :=
  ⟨rfl, order_preservation exC4 [] lmC5 [MsgPart.text "hello", MsgPart.stepStart] rfl⟩

/-- C6: on every non-empty transcript (written `ms ++ [lm]`), the output of
`processToolCalls` has the same length, every message before the last is
unchanged at its position, and the last message keeps its id, role, content
and timestamp — only its parts field may differ. -/
theorem transcript_frame_preservation (E : Executions) (ms : List Message) (lm : Message) :
    ∃ lm2 evs cs,
      processToolCalls E (ms ++ [lm]) = some (ms ++ [lm2], evs, cs) ∧
      (ms ++ [lm2]).length = (ms ++ [lm]).length ∧
      (∀ i, i < ms.length → (ms ++ [lm2])[i]? = (ms ++ [lm])[i]?) ∧
      lm2.id = lm.id ∧ lm2.role = lm.role ∧ lm2.content = lm.content ∧
      lm2.createdAt = lm.createdAt := by
  have hidx : ∀ lm2 : Message, ∀ i, i < ms.length →
      (ms ++ [lm2])[i]? = (ms ++ [lm])[i]? := by
    intro lm2 i hi
    rw [List.getElem?_append_left hi, List.getElem?_append_left hi]
  cases hp : lm.parts with
  | none =>
    refine ⟨lm, [], [], ?_, by simp, hidx lm, rfl, rfl, rfl, rfl⟩
    simp [processToolCalls, List.getLast?_concat, hp]
  | some ps =>
    refine ⟨{ lm with parts := some (processedParts E ps) },
      (ps.map (partEvents E)).flatten, (ps.map (partCalls E)).flatten, ?_, by simp,
      hidx _, rfl, rfl, rfl, rfl⟩
    simp [processToolCalls, List.getLast?_concat, List.dropLast_concat, hp]

/-- Witness for `transcript_frame_preservation` on a concrete two-message
transcript. -/
theorem transcript_frame_preservation_witness :
    ∃ lm2 evs cs,
      processToolCalls exC4 ([msgU6] ++ [lmC6]) = some ([msgU6] ++ [lm2], evs, cs) ∧
      ([msgU6] ++ [lm2]).length = ([msgU6] ++ [lmC6]).length ∧
      (∀ i, i < ([msgU6] : List Message).length →
        ([msgU6] ++ [lm2])[i]? = ([msgU6] ++ [lmC6])[i]?) ∧
      lm2.id = lmC6.id ∧ lm2.role = lmC6.role ∧ lm2.content = lmC6.content ∧
      lm2.createdAt = lmC6.createdAt :=
  transcript_frame_preservation exC4 [msgU6] lmC6

/-- C7: when no part of the last message is a tool invocation in `result`
state carrying a decision sentinel, a pass returns the transcript unchanged
with nothing published and nothing executed; hence a second pass leaves the
first pass's output unchanged, and any part already in `result` state with a
non-sentinel payload is never re-executed. -/
theorem idempotent_pass (E : Executions) (messages : List Message) (lm : Message)
    (hl : messages.getLast? = some lm)
    (hnp : ∀ ps, lm.parts = some ps → ∀ p ∈ ps, isSentinelResultPart p = false) :
    processToolCalls E messages = some (messages, [], []) ∧
    (∀ out evs cs, processToolCalls E messages = some (out, evs, cs) →
      processToolCalls E out = some (out, [], [])) ∧
    ∀ p, isSentinelResultPart p = false →
      processedPart E p = p ∧ partCalls E p = [] := by
  have hne : messages ≠ [] := by
    intro hnil
    rw [hnil] at hl
    simp at hl
  have h1 : processToolCalls E messages = some (messages, [], []) := by
    cases hp : lm.parts with
    | none => simp [processToolCalls, hl, hp]
    | some ps =>
      have hps := hnp ps hp
      have hmap : processedParts E ps = ps := by
        unfold processedParts
        have hcongr : ps.map (processedPart E) = ps.map id :=
          List.map_congr_left fun p hpm => by
            unfold processedPart
            rw [processPart_of_not_sentinel E p (hps p hpm)]
            rfl
        rw [hcongr, List.map_id]
      have hevs : (ps.map (partEvents E)).flatten = ([] : List Event) := by
        rw [List.flatten_eq_nil_iff]
        intro xs hxs
        obtain ⟨p, hpm, rfl⟩ := List.mem_map.mp hxs
        unfold partEvents
        rw [processPart_of_not_sentinel E p (hps p hpm)]
      have hcalls : (ps.map (partCalls E)).flatten = ([] : List Call) := by
        rw [List.flatten_eq_nil_iff]
        intro xs hxs
        obtain ⟨p, hpm, rfl⟩ := List.mem_map.mp hxs
        unfold partCalls
        rw [processPart_of_not_sentinel E p (hps p hpm)]
      have hgl : messages.getLast hne = lm := by
        rw [List.getLast?_eq_getLast messages hne] at hl
        exact Option.some.inj hl
      have hlmeq : { lm with parts := some ps } = lm := by
        rw [← hp]
      have hrec : messages.dropLast ++ [{ lm with parts := some ps }] = messages := by
        rw [hlmeq, ← hgl, List.dropLast_append_getLast hne]
      simp only [processToolCalls, hl, hp, hmap, hevs, hcalls]
      rw [hrec]
  refine ⟨h1, ?_, ?_⟩
  · intro out evs cs heq
    rw [h1] at heq
    cases heq
    exact h1
  · intro p hps
    exact ⟨by unfold processedPart; rw [processPart_of_not_sentinel E p hps],
           by unfold partCalls; rw [processPart_of_not_sentinel E p hps]⟩

/-- Witness for `idempotent_pass` on a transcript whose last message carries a
text part and an already reconciled invocation. -/
theorem idempotent_pass_witness :
    (([lmC7] : List Message).getLast? = some lmC7 ∧
     ∀ ps, lmC7.parts = some ps → ∀ p ∈ ps, isSentinelResultPart p = false) ∧
    (processToolCalls exC1 [lmC7] = some ([lmC7], [], []) ∧
     (∀ out evs cs, processToolCalls exC1 [lmC7] = some (out, evs, cs) →
       processToolCalls exC1 out = some (out, [], [])) ∧
     ∀ p, isSentinelResultPart p = false →
       processedPart exC1 p = p ∧ partCalls exC1 p = []) := by
  have hnp : ∀ ps, lmC7.parts = some ps → ∀ p ∈ ps, isSentinelResultPart p = false := by
    intro ps hps
    obtain rfl := Option.some.inj hps
    decide
  exact ⟨⟨rfl, hnp⟩, idempotent_pass exC1 [lmC7] lmC7 rfl hnp⟩

/-- C8: every part that reaches a rewriting branch publishes exactly one
`{toolCallId, result}` event carrying the very value written into the
rewritten part; parts that are passed through publish no event; and the
pipeline returns all per-part events, in part order, with its result. -/
theorem event_publication (E : Executions) (p : MsgPart) :
    (∀ inv, p = MsgPart.toolInvocation inv → isRewritten E p = true →
      ∃ r, processedPart E p = MsgPart.toolInvocation { inv with result := some r } ∧
        partEvents E p = [Event.mk inv.toolCallId r]) ∧
    (isRewritten E p = false → partEvents E p = []) ∧
    (∀ (ms : List Message) (lm : Message) (ps : List MsgPart), lm.parts = some ps →
      processToolCalls E (ms ++ [lm]) =
        some (ms ++ [{ lm with parts := some (processedParts E ps) }],
              (ps.map (partEvents E)).flatten,
              (ps.map (partCalls E)).flatten)) := by
  refine ⟨?_, ?_, ?_⟩
  · rintro inv rfl hrw
    simp only [isRewritten, Bool.and_eq_true, Bool.or_eq_true, decide_eq_true_eq] at hrw
    obtain ⟨⟨hin, hs⟩, hres⟩ := hrw
    rcases hres with hr | hr
    · obtain ⟨ef, hef⟩ := Option.isSome_iff_exists.mp hin
      cases ef with
      | some f =>
        have hbr := processPart_approved_fn E inv f hef hs hr
        cases hc : f inv.args with
        | ok v =>
          exact ⟨v, by unfold processedPart; rw [hbr, hc],
                 by unfold partEvents; rw [hbr, hc]⟩
        | error e =>
          exact ⟨Val.str ("Error executing tool: " ++ e),
                 by unfold processedPart; rw [hbr, hc],
                 by unfold partEvents; rw [hbr, hc]⟩
      | none =>
        have hbr := processPart_approved_nofn E inv hef hs hr
        exact ⟨Val.str "Error: No execute function found on tool",
               by unfold processedPart; rw [hbr], by unfold partEvents; rw [hbr]⟩
    · have hbr := processPart_denied E inv hin hs hr
      exact ⟨Val.str "Error: User denied access to tool execution",
             by unfold processedPart; rw [hbr], by unfold partEvents; rw [hbr]⟩
  · intro hrw
    cases p with
    | toolInvocation inv =>
      by_cases hg : (lookupExec E inv.toolName).isNone = true ∨ inv.state ≠ "result"
      · unfold partEvents
        rw [processPart_guard_true E inv hg]
      · have hin : (lookupExec E inv.toolName).isSome = true := by
          rcases not_or.mp hg with ⟨ha, -⟩
          cases hopt : lookupExec E inv.toolName with
          | none => exact absurd (by rw [hopt]; rfl) ha
          | some v => rfl
        have hs : inv.state = "result" := not_not.mp (not_or.mp hg).2
        have h2 : ¬ (inv.result = some (Val.str APPROVAL.YES)) ∧
            ¬ (inv.result = some (Val.str APPROVAL.NO)) := by
          simpa [isRewritten, hin, hs] using hrw
        unfold partEvents
        simp only [processPart]
        rw [if_neg hg, if_neg h2.1, if_neg h2.2]
    | text s => rfl
    | reasoning s => rfl
    | source s => rfl
    | file s => rfl
    | stepStart => rfl
  · intro ms lm ps hp
    simp [processToolCalls, List.getLast?_concat, List.dropLast_concat, hp]

/-- Witness for `event_publication` at an approved invocation whose resolver
raises: the published event carries the caught error string. -/
theorem event_publication_witness :
    (MsgPart.toolInvocation invC8 = MsgPart.toolInvocation invC8 ∧
     isRewritten exC8 (MsgPart.toolInvocation invC8) = true) ∧
    ((∀ inv, MsgPart.toolInvocation invC8 = MsgPart.toolInvocation inv →
       isRewritten exC8 (MsgPart.toolInvocation invC8) = true →
       ∃ r, processedPart exC8 (MsgPart.toolInvocation invC8) =
           MsgPart.toolInvocation { inv with result := some r } ∧
         partEvents exC8 (MsgPart.toolInvocation invC8) = [Event.mk inv.toolCallId r]) ∧
     (isRewritten exC8 (MsgPart.toolInvocation invC8) = false →
       partEvents exC8 (MsgPart.toolInvocation invC8) = []) ∧
     (∀ (ms : List Message) (lm : Message) (ps : List MsgPart), lm.parts = some ps →
       processToolCalls exC8 (ms ++ [lm]) =
         some (ms ++ [{ lm with parts := some (processedParts exC8 ps) }],
               (ps.map (partEvents exC8)).flatten,
               (ps.map (partCalls exC8)).flatten))) :=
  ⟨⟨rfl, rfl⟩, event_publication exC8 (MsgPart.toolInvocation invC8)⟩

/-- C9: a non-empty transcript whose last message has no parts collection is
returned unchanged, with no events published and nothing executed. -/
theorem no_parts_passthrough (E : Executions) (messages : List Message) (lm : Message)
    (hl : messages.getLast? = some lm) (hp : lm.parts = none) :
    processToolCalls E messages = some (messages, [], []) := by
  simp [processToolCalls, hl, hp]

/-- Witness for `no_parts_passthrough` at a one-message plain-text transcript. -/
theorem no_parts_passthrough_witness :
    (([lmC9] : List Message).getLast? = some lmC9 ∧ lmC9.parts = none) ∧
    processToolCalls exC1 [lmC9] = some ([lmC9], [], []) :=
  ⟨⟨rfl, rfl⟩, no_parts_passthrough exC1 [lmC9] lmC9 rfl rfl⟩

/-- C10: the empty transcript faults (the source dereferences the absent last
message, modelled as `none`); any non-empty transcript is processed safely. -/
theorem nonempty_transcript_precondition (E : Executions) :
    processToolCalls E ([] : List Message) = none ∧
    ∀ messages : List Message, messages ≠ [] →
      (processToolCalls E messages).isSome = true := by
  refine ⟨rfl, fun messages h => ?_⟩
  obtain ⟨lm, hl⟩ := Option.isSome_iff_exists.mp (List.getLast?_isSome.mpr h)
  cases hp : lm.parts with
  | none => simp [processToolCalls, hl, hp]
  | some ps => simp [processToolCalls, hl, hp]

/-- Witness for `nonempty_transcript_precondition` on a one-message
transcript. -/
theorem nonempty_transcript_precondition_witness :
    ([msgC10] : List Message) ≠ [] ∧
    (processToolCalls exC1 ([] : List Message) = none ∧
     (processToolCalls exC1 [msgC10]).isSome = true) :=
  ⟨by simp, (nonempty_transcript_precondition exC1).1,
   (nonempty_transcript_precondition exC1).2 [msgC10] (by simp)⟩
